import Mathlib

/-!
Verification of the PDF diploma verifier and attribute extractor
(`extract.go` of the irma_duo_issuer repository), as a shallow embedding
in Lean 4.

Modelling conventions:
* Byte strings are `List Nat`.
* Go strings are Lean `String`s; helpers operating on the character list
  mirror the Go standard-library functions used by the source
  (`strings.Fields`, `strings.TrimSpace`, `strings.LastIndex`,
  `strconv.Atoi`, `fmt.Sprintf` with `%02d`/`%04d` patterns).
  The whitespace predicate covers the ASCII and Latin-1 part of Go's
  `unicode.IsSpace`, which is all that diploma text contains.
* Go runtime panics (slice bounds out of range) are an explicit outcome
  constructor, never silently ignored.
* External collaborators (the `rsc.io/pdf` object-graph parser, the
  `github.com/mastahyeti/cms` PKCS#7 library and the SHA-1 primitive)
  are parameters of the embedding: the logic of `extract.go` is
  translated line by line, the library calls are oracles.
-/

namespace DuoIssuer

/-- Whitespace predicate matching Go `unicode.IsSpace` on the ASCII and
Latin-1 range (tab, newline, vertical tab, form feed, carriage return,
space, next-line, no-break space). -/
def goIsSpace (c : Char) : Bool :=
  c = ' ' ∨ c = '\t' ∨ c = '\n' ∨ c = '\x0b' ∨ c = '\x0c' ∨ c = '\r' ∨
  c = '\u0085' ∨ c = ' '

/-- Drop leading whitespace characters. -/
def dropLeadingSpace : List Char → List Char
  | [] => []
  | c :: cs => if goIsSpace c then dropLeadingSpace cs else c :: cs

/-- Characters of `strings.TrimSpace`: drop leading and trailing
whitespace. -/
def trimSpaceList (cs : List Char) : List Char :=
  dropLeadingSpace ((dropLeadingSpace cs.reverse).reverse)

/-- Go `strings.TrimSpace`. -/
def trimSpace (s : String) : String :=
  String.mk (trimSpaceList s.toList)

/-- Helper for `goFields`: split a character list around whitespace runs,
carrying the (reversed) current word. -/
def goFieldsAux : List Char → List Char → List (List Char)
  | [], [] => []
  | [], acc => [acc.reverse]
  | c :: cs, acc =>
    if goIsSpace c then
      match acc with
      | [] => goFieldsAux cs []
      | _ => acc.reverse :: goFieldsAux cs []
    else
      goFieldsAux cs (c :: acc)

/-- Go `strings.Fields`: the whitespace-separated words of a string. -/
def goFields (s : String) : List String :=
  (goFieldsAux s.toList []).map String.mk

/-- Decimal digits of a character list, or `none` when some character is
not a digit or the list is empty. -/
def digitsValue : List Char → Option Nat
  | [] => none
  | [c] => if c.isDigit then some (c.toNat - '0'.toNat) else none
  | c :: cs =>
    if c.isDigit then
      match digitsValue cs with
      | some n => some ((c.toNat - '0'.toNat) * 10 ^ cs.length + n)
      | none => none
    else none

/-- Go `strconv.Atoi`, with the error result collapsed to the value `0`
that the source uses after discarding the error: an optional sign followed
by one or more digits parses to its value, everything else gives `0`.
(Overflow of the 64-bit range is not modelled; diploma dates are tiny.) -/
def goAtoi (s : String) : Int :=
  match s.toList with
  | '+' :: cs =>
    match digitsValue cs with
    | some n => (n : Int)
    | none => 0
  | '-' :: cs =>
    match digitsValue cs with
    | some n => -(n : Int)
    | none => 0
  | cs =>
    match digitsValue cs with
    | some n => (n : Int)
    | none => 0

/-- The fixed 12-entry Dutch month table `dutchMonths`; Go map lookup
returns the zero value `0` for an absent key. -/
def dutchMonths (s : String) : Int :=
  match s with
  | "januari" => 1
  | "februari" => 2
  | "maart" => 3
  | "april" => 4
  | "mei" => 5
  | "juni" => 6
  | "juli" => 7
  | "augustus" => 8
  | "september" => 9
  | "oktober" => 10
  | "november" => 11
  | "december" => 12
  | _ => 0

/-- Go `fmt.Sprintf` `%0Nd` of an integer: decimal digits, zero-padded on
the left to width `w`, the sign (for a negative value) counting towards
the width and standing before the padding. -/
def sprintfPad (w : Nat) (n : Int) : String :=
  let digits := fun (m : Nat) (width : Nat) =>
    let ds := Nat.toDigits 10 m
    List.replicate (width - ds.length) '0' ++ ds
  if n < 0 then
    String.mk ('-' :: digits n.natAbs (w - 1))
  else
    String.mk (digits n.toNat w)

/-- Go `parseDutchDate`: parse a Dutch date in the form `"3 maart 1990"`
to `"03-03-1990"`, returning `""` whenever the word count is not three or
day, month or year comes out zero. -/
def parseDutchDate (indate : String) : String :=
  let parts := goFields indate
  if h : parts.length = 3 then
    let day := goAtoi (parts.get ⟨0, by omega⟩)
    let month := dutchMonths (parts.get ⟨1, by omega⟩)
    let year := goAtoi (parts.get ⟨2, by omega⟩)
    if day = 0 ∨ month = 0 ∨ year = 0 then ""
    else sprintfPad 2 day ++ "-" ++ sprintfPad 2 month ++ "-" ++ sprintfPad 4 year
  else ""

/-- Go `parseDutchMonth`: parse a Dutch month in the form
`"Augustus 2016"` to `"01-08-2016"` (first day of the month), returning
`""` whenever the word count is not two or month or year comes out
zero. The month word is lowercased first (`strings.ToLower`). -/
def parseDutchMonth (indate : String) : String :=
  let parts := goFields indate
  if h : parts.length = 2 then
    let month := dutchMonths (String.mk ((parts.get ⟨0, by omega⟩).toList.map Char.toLower))
    let year := goAtoi (parts.get ⟨1, by omega⟩)
    if month = 0 ∨ year = 0 then ""
    else "01-" ++ sprintfPad 2 month ++ "-" ++ sprintfPad 4 year
  else ""

/-- Prefix test on character lists (the first list is the candidate
prefix), mirroring the byte-wise matching of Go `strings`. -/
def isPrefixList : List Char → List Char → Bool
  | [], _ => true
  | _ :: _, [] => false
  | c :: cs, d :: ds => c == d && isPrefixList cs ds

/-- Helper for `goLastIndex`: scan the remaining characters, remembering
the latest position where the pattern matched. -/
def lastIndexAux (sub : List Char) : List Char → Nat → Option Nat → Option Nat
  | [], _, acc => acc
  | c :: cs, i, acc =>
    lastIndexAux sub cs (i + 1) (if isPrefixList sub (c :: cs) then some i else acc)

/-- Go `strings.LastIndex` for a non-empty pattern: the index of the last
occurrence of `sub` in `s`, or `none` (Go: `-1`) when there is none. Go
indexes bytes; for the ASCII pattern `" in "` inside valid UTF-8 text,
byte occurrences and character occurrences correspond one to one and
splitting at the match yields the same substrings, so the embedding works
at character granularity. -/
def goLastIndex (s sub : String) : Option Nat :=
  lastIndexAux sub.toList s.toList 0 none

/-! DOM model. `pdf2htmlEX` and the `soup` HTML parser are external
collaborators: the extractor consumes, per page, the element children of
the page container and, inside a page, the list of `div` elements found
by `FindAll("div")`, looking only at each div's children, their node
types and their text values. That is exactly what the model keeps. -/

/-- The node types `extract.go` distinguishes: `html.TextNode`,
`html.ElementNode`, anything else. -/
inductive NodeType where
  | textNode
  | elementNode
  | otherNode
deriving DecidableEq

/-- A DOM child node as the extractor sees it: its type and its
`NodeValue` (the literal text for a text node). -/
structure Node where
  typ : NodeType
  value : String
deriving DecidableEq

/-- A `div` element of a page, i.e. its list of children. -/
abbrev Element := List Node

/-- A child of the page container: its node type and the `div` elements
found below it. -/
structure Page where
  typ : NodeType
  divs : List Element
deriving DecidableEq

/-- The fixed marker string that flags a diploma page. -/
def markerText : String := "Uittreksel uit het diplomaregister"

/-- Association-list update with Go map semantics: overwrite the value of
an existing key in place, append a new key at the end. -/
def alSet : List (String × String) → String → String → List (String × String)
  | [], k, v => [(k, v)]
  | (k1, v1) :: rest, k, v =>
    if k1 = k then (k, v) :: rest else (k1, v1) :: alSet rest k v

/-- Association-list lookup: `some` value, or `none` for an absent key
(Go: the second result of the comma-ok form). -/
def alGet? (m : List (String × String)) (k : String) : Option String :=
  (m.find? (fun p => p.1 == k)).map (fun p => p.2)

/-- Association-list lookup collapsing an absent key to the zero value
`""`, as Go map indexing does. -/
def alGet (m : List (String × String)) (k : String) : String :=
  (alGet? m k).getD ""

/-- The loop state of the scan over a page's `div` elements in
`extractSinglePage`: the `validPage` flag, the `lastKey` continuation
marker and the raw attribute map. Go map iteration order is unspecified;
the raw map is kept as an insertion-ordered association list, which fixes
one of the admissible orders. -/
structure ScanState where
  validPage : Bool
  lastKey : String
  raw : List (String × String)
deriving DecidableEq

/-- One iteration of the `div` loop of `extractSinglePage` (the loop body
at lines 328–358 of `extract.go`): continuation heuristic first, then
clearing `lastKey`, then the marker test on a single-text element, then
the three-children label/value row. -/
def stepEl (s : ScanState) (el : Element) : ScanState :=
  match el with
  | [child] =>
    if s.lastKey == "Instelling" && child.typ == NodeType.textNode then
      { s with
        raw := alSet s.raw s.lastKey (alGet s.raw s.lastKey ++ " " ++ trimSpace child.value) }
    else
      let s1 := { s with lastKey := "" }
      if child.typ == NodeType.textNode && child.value == markerText then
        { s1 with validPage := true }
      else s1
  | [c0, _c1, c2] =>
    let s1 := { s with lastKey := "" }
    if c0.typ == NodeType.textNode && c2.typ == NodeType.textNode then
      let key := trimSpace c0.value
      let value := trimSpace c2.value
      { s1 with raw := alSet s1.raw key value, lastKey := key }
    else s1
  | _ => { s with lastKey := "" }

/-- Translation of one raw attribute into the canonical attribute map:
the `switch key` of `extractSinglePage` (lines 363–415 of `extract.go`).
Debug printing is omitted (output only, no effect on the result). -/
def translateEntry (attributes : List (String × String)) (kv : String × String) :
    List (String × String) :=
  let value := kv.2
  match kv.1 with
  | "Achternaam" => alSet attributes "familyname" value
  | "Tussenvoegsel" => alSet attributes "prefix" value
  | "Voorna(a)m(en)" => alSet attributes "firstname" value
  | "Geslacht" =>
    alSet attributes "gender"
      (match value with
       | "Man" => "male"
       | "Vrouw" => "female"
       | _ => "unknown")
  | "Geboortedatum" => alSet attributes "dateofbirth" (parseDutchDate value)
  | "Soort waardedocument" => attributes
  | "Opleiding" => alSet attributes "education" value
  | "Aard van het examen" => alSet attributes "degree" value
  | "Profiel" => alSet attributes "profile" value
  | "Behaald in" | "Behaald op" =>
    let date := parseDutchDate value
    let date1 := if date = "" then parseDutchMonth value else date
    alSet attributes "achieved" date1
  | "Instelling" =>
    match goLastIndex value " in " with
    | none => attributes
    | some i =>
      let cs := value.toList
      alSet (alSet attributes "institute" (trimSpace (String.mk (cs.take i))))
        "city" (trimSpace (String.mk (cs.drop (i + 4))))
  | _ => attributes

/-- The whole translation step: fold `translateEntry` over the raw
attribute map in its (fixed) iteration order. -/
def translateAll (raw : List (String × String)) : List (String × String) :=
  raw.foldl translateEntry []

/-- The `requiredAttributes` table of `extractSinglePage`, in source-text
order. -/
def requiredAttributes : List (String × Bool) :=
  [("familyname", true), ("prefix", false), ("firstname", true),
   ("gender", true), ("dateofbirth", true), ("education", true),
   ("degree", false), ("profile", false), ("achieved", true),
   ("institute", true), ("city", true)]

/-- The required-attribute check of `extractSinglePage`: the first
mandatory key absent from the attribute map, in the fixed table order.
Go iterates the `requiredAttributes` map in unspecified order; the
embedding fixes the source-text order, and the claims proved below do
not depend on which missing key is reported when several are. Note the
source checks presence only (`_, ok := attributes[key]`), not
non-emptiness. -/
def firstMissingRequired (attributes : List (String × String)) : Option String :=
  (requiredAttributes.find? (fun p => p.2 && (alGet? attributes p.1).isNone)).map
    (fun p => p.1)

/-- `extractSinglePage` (lines 324–442 of `extract.go`): scan the page's
`div` elements, translate the raw attributes, return `none` for a page
without the marker, reject a marked page missing a mandatory key with
the `cannot find attribute` error, otherwise return the attribute map.
The error is modelled by its `ExtractError.Op` string. -/
def extractSinglePage (page : Page) : Except String (Option (List (String × String))) :=
  let s := page.divs.foldl stepEl ⟨false, "", []⟩
  let attributes := translateAll s.raw
  if s.validPage = false then
    .ok none
  else
    match firstMissingRequired attributes with
    | some key => .error ("cannot find attribute: " ++ key)
    | none => .ok (some attributes)

/-- The page loop of `extractAttributes` (lines 307–321 of
`extract.go`): skip container children that are not element nodes, skip
pages yielding no attributes, abort on the first page error, otherwise
collect the attribute maps in page order. The earlier stages of
`extractAttributes` (temporary files, the `pdf2htmlEX` run, HTML parsing
and locating the `page-container` element) are external collaborators
that produce the `List Page` input. -/
def extractAttributesPages : List Page → Except String (List (List (String × String)))
  | [] => .ok []
  | page :: rest =>
    if page.typ ≠ NodeType.elementNode then extractAttributesPages rest
    else
      match extractSinglePage page with
      | .error e => .error e
      | .ok none => extractAttributesPages rest
      | .ok (some attributes) =>
        match extractAttributesPages rest with
        | .error e => .error e
        | .ok sets => .ok (attributes :: sets)

/-- An element with exactly one text child (as tested by the
continuation heuristic and the marker test). -/
def isSingleText (el : Element) : Bool :=
  match el with
  | [child] => child.typ == NodeType.textNode
  | _ => false

/-- The text of a single-text element (zero value for others). -/
def singleTextValue (el : Element) : String :=
  match el with
  | [child] => child.value
  | _ => ""

/-- An element that flags the page as a valid diploma page. -/
def isMarkerElement (el : Element) : Bool :=
  isSingleText el && singleTextValue el == markerText

/-! The signature verifier. The `rsc.io/pdf` object-graph reader and the
PKCS#7/CMS and SHA-1 primitives are external libraries; they enter the
embedding as the abstract parse result and the crypto oracles below,
while the logic of `verifyPDF`, `verifySignature` and
`verifyDetachedSignature` is translated statement by statement. -/

/-- The result of a `verifyPDF` run: a Go runtime panic (`crash`, from a
slice bound violation), an error return, or the trusted PDF bytes. -/
inductive VerifyOutcome where
  | crash
  | err (msg : String)
  | ok (trustedPDF : List Nat)
deriving DecidableEq

/-- Abstraction of what `verifyPDF` reads out of the PDF object graph
through `rsc.io/pdf` (lines 87–121 of `extract.go`): each early-return
case of the parsing phase, or the extracted signature `Contents` bytes,
`SubFilter` name and four-integer `ByteRange`. -/
inductive PdfParseResult where
  | readerError (msg : String)
  | noSignature
  | malformedSignature
  | noByteRange
  | badByteRangeType
  | parsed (contents : List Nat) (subfilter : String)
      (byteRange : Int × Int × Int × Int)
deriving DecidableEq

/-- The external cryptographic primitives, closed over the certificate
pool: the SHA-1 function, the combined
`cms.ParseSignedData`/`Verify`/`GetData` pipeline used by
`verifySignature` (returning the embedded signed digest on success, the
first error otherwise), and the combined
`cms.ParseSignedData`/`VerifyDetached` pipeline used by
`verifyDetachedSignature` (`none` on success). -/
structure Crypto where
  sha1 : List Nat → List Nat
  parseVerifyGetData : List Nat → Except String (List Nat)
  verifyDetached : List Nat → List Nat → Option String

/-- Go slice expression `xs[lo:hi]`: `none` models the runtime panic
when the bounds are violated. (Go checks `hi` against the capacity; for
the buffers in this code capacity equals length, and a negative bound
panics in any case.) -/
def goSliceGet (xs : List Nat) (lo hi : Int) : Option (List Nat) :=
  if 0 ≤ lo ∧ lo ≤ hi ∧ hi ≤ (xs.length : Int) then
    some ((xs.drop lo.toNat).take (hi - lo).toNat)
  else none

/-- Go `make([]byte, n)`: a zero buffer, or a panic for a negative
size. -/
def goMake (n : Int) : Option (List Nat) :=
  if 0 ≤ n then some (List.replicate n.toNat 0) else none

/-- Go `copy(buf[off:off+len], src)`: panic when the destination slice
bounds are violated, otherwise overwrite
`min len (src.length)` bytes of `buf` starting at `off`. -/
def goCopyInto (buf : List Nat) (off len : Int) (src : List Nat) : Option (List Nat) :=
  if 0 ≤ off ∧ off ≤ off + len ∧ off + len ≤ (buf.length : Int) then
    let copied := min len.toNat src.length
    some (buf.take off.toNat ++ src.take copied ++ buf.drop (off.toNat + copied))
  else none

/-- `verifySignature` (lines 181–212 of `extract.go`): run the CMS
pipeline on the signature bytes and compare the signed digest with the
hash computed over the signed ranges (`bytes.Compare != 0` is list
inequality). `none` means success. -/
def verifySignature (c : Crypto) (sigData foundHash : List Nat) : Option String :=
  match c.parseVerifyGetData sigData with
  | .error e => some e
  | .ok data =>
    if foundHash = data then none
    else some "verifySignature: could not verify signature: hash doesn't match"

/-- `verifyDetachedSignature` (lines 216–234 of `extract.go`): entirely a
CMS library call, so exactly the detached oracle. -/
def verifyDetachedSignature (c : Crypto) (sigData msg : List Nat) : Option String :=
  c.verifyDetached sigData msg

/-- `verifyPDF` (lines 85–177 of `extract.go`): parse-phase early
returns, the ByteRange sanity check, the two slice expressions for the
signed ranges, the sub-filter dispatch (SHA-1 hash of the concatenation
for `adbe.pkcs7.sha1`, detached verification of the concatenation for
`adbe.pkcs7.detached`, an error for anything else), and on success the
freshly allocated trusted buffer with the two verified ranges copied in
at their original offsets. -/
def verifyPDF (inputPDF : List Nat) (parse : PdfParseResult) (c : Crypto) : VerifyOutcome :=
  match parse with
  | .readerError msg => .err msg
  | .noSignature => .err "verifyPDF: could not find signature"
  | .malformedSignature => .err "verifyPDF: could not extract signature"
  | .noByteRange => .err "verifyPDF: could not find ByteRange"
  | .badByteRangeType => .err "verifyPDF: invalid ByteRange type"
  | .parsed contents subfilter (o0, l0, o1, l1) =>
    if o0 ≠ 0 ∨ o1 + l1 ≠ (inputPDF.length : Int) then
      .err "verifyPDF: byte ranges don't cover the entire PDF"
    else
      match goSliceGet inputPDF o0 (o0 + l0), goSliceGet inputPDF o1 (o1 + l1) with
      | some before, some after =>
        match
          (if subfilter = "adbe.pkcs7.sha1" then
            verifySignature c contents (c.sha1 (before ++ after))
          else if subfilter = "adbe.pkcs7.detached" then
            verifyDetachedSignature c contents (before ++ after)
          else
            some ("verifyPDF: unimplemented subfilter: " ++ subfilter)) with
        | some e => .err e
        | none =>
          match goMake (o1 + l1) with
          | none => .crash
          | some buf0 =>
            match goCopyInto buf0 o0 l0 before with
            | none => .crash
            | some buf1 =>
              match goCopyInto buf1 o1 l1 after with
              | none => .crash
              | some trustedPDF => .ok trustedPDF
      | _, _ => .crash

/-- A crypto oracle under which every signature verifies: the CMS
pipeline succeeds with digest `[]`, which is also what the constant
SHA-1 stand-in computes, and detached verification always succeeds. Used
to drive the verifier to its success path on concrete inputs. -/
def cryptoAllOk : Crypto where
  sha1 := fun _ => []
  parseVerifyGetData := fun _ => .ok []
  verifyDetached := fun _ _ => none

/-- A three-children label/value row as rendered by the external tool:
text label, separator glyph, text value. -/
def row (k v : String) : Element :=
  [⟨NodeType.textNode, k⟩, ⟨NodeType.otherNode, ""⟩, ⟨NodeType.textNode, v⟩]

/-- The single-text marker element of a diploma page. -/
def markerDiv : Element :=
  [⟨NodeType.textNode, "Uittreksel uit het diplomaregister"⟩]

/-- A page with the marker and every mandatory row. -/
def validSamplePage : Page :=
  ⟨NodeType.elementNode,
   [markerDiv, row "Achternaam" "Jans", row "Voorna(a)m(en)" "Jan",
    row "Geslacht" "Man", row "Geboortedatum" "3 maart 1990",
    row "Opleiding" "B Informatica", row "Behaald op" "Augustus 2016",
    row "Instelling" "Hogeschool X in AMSTERDAM"]⟩

/-- A page with the marker and nothing else. -/
def markerOnlyPage : Page := ⟨NodeType.elementNode, [markerDiv]⟩

/-- A page with the marker and every mandatory row, but an unparseable
birth date. -/
def garbageDatePage : Page :=
  ⟨NodeType.elementNode,
   [markerDiv, row "Achternaam" "Jans", row "Voorna(a)m(en)" "Jan",
    row "Geslacht" "Man", row "Geboortedatum" "garbage",
    row "Opleiding" "B Informatica", row "Behaald op" "Augustus 2016",
    row "Instelling" "Hogeschool X in AMSTERDAM"]⟩

end DuoIssuer


deriving instance DecidableEq for Except

namespace DuoIssuer

/-! Helper lemmas about the association-list map operations. -/

theorem alGet?_alSet_same (m : List (String × String)) (k v : String) :
    alGet? (alSet m k v) k = some v := by
  induction m with
  | nil =>
    show alGet? [(k, v)] k = some v
    rw [alGet?, List.find?_cons_of_pos _ (by simp)]
    rfl
  | cons p rest ih =>
    obtain ⟨k1, v1⟩ := p
    by_cases h : k1 = k
    · simp only [alSet, if_pos h, alGet?]
      rw [List.find?_cons_of_pos _ (by simp)]
      rfl
    · simp only [alSet, if_neg h, alGet?]
      rw [List.find?_cons_of_neg _ (by simp [h])]
      simpa [alGet?] using ih

theorem alGet?_alSet_other (m : List (String × String)) (k v k2 : String)
    (h : k2 ≠ k) : alGet? (alSet m k v) k2 = alGet? m k2 := by
  induction m with
  | nil =>
    show alGet? [(k, v)] k2 = alGet? [] k2
    rw [alGet?, List.find?_cons_of_neg _ (by simp [Ne.symm h])]
    rfl
  | cons p rest ih =>
    obtain ⟨k1, v1⟩ := p
    by_cases h1 : k1 = k
    · simp only [alSet, if_pos h1, alGet?]
      by_cases h2 : k1 = k2
      · exact absurd (h2 ▸ h1) h
      · rw [List.find?_cons_of_neg _ (by simp [Ne.symm h]),
          List.find?_cons_of_neg _ (by simp [h2])]
    · simp only [alSet, if_neg h1, alGet?]
      by_cases h2 : k1 = k2
      · rw [List.find?_cons_of_pos _ (by simp [h2]),
          List.find?_cons_of_pos _ (by simp [h2])]
      · rw [List.find?_cons_of_neg _ (by simp [h2]),
          List.find?_cons_of_neg _ (by simp [h2])]
        simpa [alGet?] using ih

theorem alGet_alSet_same (m : List (String × String)) (k v : String) :
    alGet (alSet m k v) k = v := by
  simp [alGet, alGet?_alSet_same]

end DuoIssuer

namespace DuoIssuer

theorem stepEl_validPage_of_not_marker (s : ScanState) (el : Element)
    (h : isMarkerElement el = false) : (stepEl s el).validPage = s.validPage := by
  rcases el with _ | ⟨c, _ | ⟨d, _ | ⟨e, _ | ⟨f, tl⟩⟩⟩⟩
  · rfl
  · simp only [isMarkerElement, isSingleText, singleTextValue] at h
    simp only [stepEl]
    split
    · rfl
    · split
      · rename_i hcond
        simp [h] at hcond
      · rfl
  · rfl
  · simp only [stepEl]
    split
    · rfl
    · rfl
  · rfl

theorem foldl_stepEl_validPage (divs : List Element) (s : ScanState)
    (h : ∀ el ∈ divs, isMarkerElement el = false) :
    (divs.foldl stepEl s).validPage = s.validPage := by
  induction divs generalizing s with
  | nil => rfl
  | cons el rest ih =>
    rw [List.foldl_cons, ih _ (fun e he => h e (List.mem_cons_of_mem _ he)),
      stepEl_validPage_of_not_marker s el (h el (List.mem_cons_self _ _))]

theorem stepEl_continuation (s : ScanState) (el : Element)
    (hk : s.lastKey = "Instelling") (h1 : isSingleText el = true) :
    stepEl s el =
      { s with raw := alSet s.raw "Instelling" (alGet s.raw "Instelling" ++ " " ++ trimSpace (singleTextValue el)) } := by
  rcases el with _ | ⟨c, _ | ⟨d, tl⟩⟩
  · exact absurd h1 (by simp [isSingleText])
  · simp only [isSingleText] at h1
    simp [stepEl, singleTextValue, hk, h1]
  · exact absurd h1 (by simp [isSingleText])

/-- C5: a page in which no div element carries the marker as its single
text child is skipped without error: extractSinglePage returns no entry
and no error, whatever label/value rows the page contains. -/
theorem C5_page_without_marker_skipped (page : Page)
    (h : ∀ el ∈ page.divs, isMarkerElement el = false) :
    extractSinglePage page = .ok none := by
  have hv : (page.divs.foldl stepEl ⟨false, "", []⟩).validPage = false :=
    foldl_stepEl_validPage page.divs ⟨false, "", []⟩ h
  simp [extractSinglePage, hv]

/-- Witness for C5: a page holding one well-formed label/value row and no
marker yields no entry and no error. -/
theorem C5_page_without_marker_skipped_witness :
    extractSinglePage ⟨NodeType.elementNode,
      [[⟨NodeType.textNode, "Achternaam"⟩, ⟨NodeType.otherNode, ""⟩,
        ⟨NodeType.textNode, "Jans"⟩]]⟩ = .ok none :=
  C5_page_without_marker_skipped _ (by decide)

/-- C10: the continuation heuristic takes precedence over marker
detection and row parsing. From a state whose lastKey is "Instelling",
a run of elements each holding exactly one text child leaves validPage
unchanged (even when some child text is the marker string), keeps
lastKey at "Instelling" (so every element of the run appends), appends
each trimmed text space-separated to the institution entry, and touches
no other raw key. -/
theorem C10_continuation_precedence (s : ScanState) (els : List Element)
    (hk : s.lastKey = "Instelling") (h : ∀ el ∈ els, isSingleText el = true) :
    (els.foldl stepEl s).validPage = s.validPage ∧
    (els.foldl stepEl s).lastKey = "Instelling" ∧
    alGet (els.foldl stepEl s).raw "Instelling" =
      els.foldl (fun acc el => acc ++ " " ++ trimSpace (singleTextValue el))
        (alGet s.raw "Instelling") ∧
    ∀ k, k ≠ "Instelling" → alGet? (els.foldl stepEl s).raw k = alGet? s.raw k := by
  induction els generalizing s with
  | nil => exact ⟨rfl, hk, rfl, fun k _ => rfl⟩
  | cons el rest ih =>
    have hstep := stepEl_continuation s el hk (h el (List.mem_cons_self _ _))
    have hlast : (stepEl s el).lastKey = "Instelling" := by rw [hstep]; exact hk
    have hrest := ih (stepEl s el) hlast (fun e he => h e (List.mem_cons_of_mem _ he))
    rw [List.foldl_cons, List.foldl_cons]
    refine ⟨?_, hrest.2.1, ?_, ?_⟩
    · exact hrest.1.trans (by rw [hstep])
    · have hsame : alGet (stepEl s el).raw "Instelling" =
          alGet s.raw "Instelling" ++ " " ++ trimSpace (singleTextValue el) := by
        rw [hstep]
        exact alGet_alSet_same _ _ _
      rw [hrest.2.2.1, hsame]
    · intro k hkne
      rw [hrest.2.2.2 k hkne, hstep]
      exact alGet?_alSet_other _ _ _ _ hkne

/-- Witness for C10: starting after an institution row, a marker element
followed by a plain text element are both appended to the institution
value; the marker does not validate the page and no other key changes. -/
theorem C10_continuation_precedence_witness :
    (([[⟨NodeType.textNode, "Uittreksel uit het diplomaregister"⟩],
       [⟨NodeType.textNode, " X "⟩]] : List Element).foldl stepEl
      ⟨false, "Instelling", [("Instelling", "Hogeschool")]⟩).validPage = false ∧
    (([[⟨NodeType.textNode, "Uittreksel uit het diplomaregister"⟩],
       [⟨NodeType.textNode, " X "⟩]] : List Element).foldl stepEl
      ⟨false, "Instelling", [("Instelling", "Hogeschool")]⟩).lastKey = "Instelling" ∧
    alGet (([[⟨NodeType.textNode, "Uittreksel uit het diplomaregister"⟩],
       [⟨NodeType.textNode, " X "⟩]] : List Element).foldl stepEl
      ⟨false, "Instelling", [("Instelling", "Hogeschool")]⟩).raw "Instelling" =
      "Hogeschool Uittreksel uit het diplomaregister X" ∧
    alGet? (([[⟨NodeType.textNode, "Uittreksel uit het diplomaregister"⟩],
       [⟨NodeType.textNode, " X "⟩]] : List Element).foldl stepEl
      ⟨false, "Instelling", [("Instelling", "Hogeschool")]⟩).raw "city" = none := by
  have h := C10_continuation_precedence
    ⟨false, "Instelling", [("Instelling", "Hogeschool")]⟩
    [[⟨NodeType.textNode, "Uittreksel uit het diplomaregister"⟩],
     [⟨NodeType.textNode, " X "⟩]] rfl (by decide)
  exact ⟨h.1, h.2.1, h.2.2.1.trans (by decide),
    (h.2.2.2 "city" (by decide)).trans (by decide)⟩

/-- Counterexample to C7 as stated: for the raw institution value
"A  in B" the last occurrence of " in " is at index 2, so the part
before the separator is "A " — but the code stores the trimmed string
"A" as institute, not the untrimmed part before the separator. -/
theorem C7_institute_untrimmed_counterexample :
    goLastIndex "A  in B" " in " = some 2 ∧
    String.mk (("A  in B" : String).toList.take 2) = "A " ∧
    alGet? (translateEntry [] ("Instelling", "A  in B")) "institute" = some "A" ∧
    ("A" : String) ≠ "A " :=
  ⟨by decide, by decide, by decide, by decide⟩

/-- C7 (amended): translation splits the institution value on the last
occurrence of " in ": the trimmed part before the separator becomes
institute and the trimmed part after it becomes city; a value without
the separator stores neither institute nor city — the translation leaves
the attribute map untouched. -/
theorem C7_institution_split (attrs : List (String × String)) (value : String) :
    (goLastIndex value " in " = none → translateEntry attrs ("Instelling", value) = attrs) ∧
    (∀ i, goLastIndex value " in " = some i →
      alGet? (translateEntry attrs ("Instelling", value)) "institute" =
        some (trimSpace (String.mk (value.toList.take i))) ∧
      alGet? (translateEntry attrs ("Instelling", value)) "city" =
        some (trimSpace (String.mk (value.toList.drop (i + 4))))) := by
  constructor
  · intro h
    simp [translateEntry, h]
  · intro i h
    simp only [translateEntry, h]
    constructor
    · rw [alGet?_alSet_other _ _ _ _ (by decide)]
      exact alGet?_alSet_same _ _ _
    · exact alGet?_alSet_same _ _ _

/-- Witness for C7 (amended) at the spec example: "Hogeschool X in
AMSTERDAM" splits into institute "Hogeschool X" and city "AMSTERDAM". -/
theorem C7_institution_split_witness :
    alGet? (translateEntry [] ("Instelling", "Hogeschool X in AMSTERDAM")) "institute" =
      some "Hogeschool X" ∧
    alGet? (translateEntry [] ("Instelling", "Hogeschool X in AMSTERDAM")) "city" =
      some "AMSTERDAM" := by
  have h := (C7_institution_split [] "Hogeschool X in AMSTERDAM").2 12 (by decide)
  exact ⟨h.1.trans (by decide), h.2.trans (by decide)⟩

/-- C3 fails on the code: the required-attribute check of
extractSinglePage tests presence only, never non-emptiness. A marked
page whose Geboortedatum value is unparseable gets dateofbirth stored as
the empty string and is accepted, not rejected (the TODO in
verifyAndExtract records the missing check). -/
theorem C3_empty_dateofbirth_accepted :
    extractSinglePage garbageDatePage =
      .ok (some [("familyname", "Jans"), ("firstname", "Jan"), ("gender", "male"),
        ("dateofbirth", ""), ("education", "B Informatica"),
        ("achieved", "01-08-2016"), ("institute", "Hogeschool X"),
        ("city", "AMSTERDAM")]) ∧
    alGet [("familyname", "Jans"), ("firstname", "Jan"), ("gender", "male"),
        ("dateofbirth", ""), ("education", "B Informatica"),
        ("achieved", "01-08-2016"), ("institute", "Hogeschool X"),
        ("city", "AMSTERDAM")] "dateofbirth" = "" :=
  ⟨by decide, by decide⟩

/-- C4: a page recognized as a diploma page (validPage set by the
marker) that lacks a mandatory key after translation aborts the whole
batch: extractAttributesPages returns the cannot-find-attribute error
for that key and no attribute set, whatever fully valid pages stand
before or after it. -/
theorem C4_missing_attribute_aborts (pre : List Page) (p : Page) (post : List Page)
    (key : String)
    (hpre : ∀ q ∈ pre, q.typ = NodeType.elementNode → ∃ r, extractSinglePage q = .ok r)
    (hp : p.typ = NodeType.elementNode)
    (hvalid : (p.divs.foldl stepEl ⟨false, "", []⟩).validPage = true)
    (hmiss : firstMissingRequired (translateAll (p.divs.foldl stepEl ⟨false, "", []⟩).raw) =
      some key) :
    extractAttributesPages (pre ++ p :: post) =
      .error ("cannot find attribute: " ++ key) := by
  have hperr : extractSinglePage p = .error ("cannot find attribute: " ++ key) := by
    simp [extractSinglePage, hvalid, hmiss]
  induction pre with
  | nil =>
    simp only [List.nil_append, extractAttributesPages]
    rw [if_neg (by simp [hp]), hperr]
  | cons q rest ih =>
    have hih := ih (fun q2 hq2 _ => hpre q2 (List.mem_cons_of_mem _ hq2) (by assumption))
    simp only [List.cons_append, extractAttributesPages]
    by_cases hq : q.typ = NodeType.elementNode
    · obtain ⟨r, hr⟩ := hpre q (List.mem_cons_self _ _) hq
      rw [if_neg (by simp [hq]), hr]
      cases r with
      | none => exact hih
      | some attrs =>
        simp only [List.append_eq]
        rw [hih]
    · rw [if_pos hq]
      exact hih

/-- Witness for C4: a fully valid page, then a marker-only page, then
another fully valid page — the batch aborts with the missing familyname
error. -/
theorem C4_missing_attribute_aborts_witness :
    extractAttributesPages [validSamplePage, markerOnlyPage, validSamplePage] =
      .error "cannot find attribute: familyname" := by
  have h := C4_missing_attribute_aborts [validSamplePage] markerOnlyPage
    [validSamplePage] "familyname"
    (fun q hq _ => by
      simp only [List.mem_singleton] at hq
      subst hq
      exact ⟨some [("familyname", "Jans"), ("firstname", "Jan"), ("gender", "male"),
        ("dateofbirth", "03-03-1990"), ("education", "B Informatica"),
        ("achieved", "01-08-2016"), ("institute", "Hogeschool X"),
        ("city", "AMSTERDAM")], by decide⟩)
    (by decide) (by decide) (by decide)
  exact h

/-- C6: the Dutch date grammar maps "3 maart 1990" to "03-03-1990", the
month-only fallback maps "Augustus 2016" to "01-08-2016", and on an
input matching neither grammar, such as "garbage", both parsers return
the empty string (no error). -/
theorem C6_dutch_date_parsing :
    parseDutchDate "3 maart 1990" = "03-03-1990" ∧
    parseDutchMonth "Augustus 2016" = "01-08-2016" ∧
    parseDutchDate "garbage" = "" ∧ parseDutchMonth "garbage" = "" :=
  ⟨by decide, by decide, by decide, by decide⟩

/-- C2: when the four parsed ByteRange integers fail the sanity check
(first offset nonzero, or second offset plus second length different
from the input length), verifyPDF returns the InvalidByteRange error;
the result is the same for every crypto oracle, so no hashing and no
signature verification is performed. -/
theorem C2_invalid_byte_range (inputPDF contents : List Nat) (subfilter : String)
    (o0 l0 o1 l1 : Int) (c : Crypto)
    (h : o0 ≠ 0 ∨ o1 + l1 ≠ (inputPDF.length : Int)) :
    verifyPDF inputPDF (.parsed contents subfilter (o0, l0, o1, l1)) c =
      .err "verifyPDF: byte ranges don't cover the entire PDF" := by
  simp only [verifyPDF]
  rw [if_pos h]

/-- Witness for C2 at a concrete input: byte ranges starting at offset 1
on a three-byte file are rejected. -/
theorem C2_invalid_byte_range_witness :
    verifyPDF [1, 2, 3] (.parsed [] "adbe.pkcs7.sha1" (1, 1, 1, 2)) cryptoAllOk =
      .err "verifyPDF: byte ranges don't cover the entire PDF" :=
  C2_invalid_byte_range [1, 2, 3] [] "adbe.pkcs7.sha1" 1 1 1 2 cryptoAllOk (by decide)

/-- C9: the sanity check does not make the slice expressions safe: the
ByteRange [0, -1, 4, 0] on a four-byte file passes the check (first
offset 0, and 4 + 0 equals the length), yet slicing the first signed
range violates the slice bounds and the code panics instead of
returning an error. -/
theorem C9_sanity_check_panics :
    verifyPDF [37, 80, 68, 70] (.parsed [] "adbe.pkcs7.sha1" (0, -1, 4, 0)) cryptoAllOk =
      .crash ∧
    ¬((0 : Int) ≠ 0 ∨ (4 : Int) + 0 ≠ (([37, 80, 68, 70] : List Nat).length : Int)) :=
  ⟨by decide, by decide⟩

/-- C8: verifyPDF is deterministic and idempotent. The embedding is a
pure function — the Go function reads nothing beyond its two arguments
and calls only deterministic library primitives — so two runs on the
same input bytes, the same parsed signature data and the same oracles
(the same trust store) produce the same outcome: bit-identical trusted
bytes or the identical error. -/
theorem C8_deterministic (inputPDF : List Nat) (parse : PdfParseResult) (c : Crypto)
    (r1 r2 : VerifyOutcome)
    (h1 : verifyPDF inputPDF parse c = r1) (h2 : verifyPDF inputPDF parse c = r2) :
    r1 = r2 := by
  rw [← h1, ← h2]

/-- Witness for C8 at a concrete input: two runs on a five-byte file
with a verifying signature agree. -/
theorem C8_deterministic_witness :
    VerifyOutcome.ok [1, 0, 0, 4, 5] = VerifyOutcome.ok [1, 0, 0, 4, 5] :=
  C8_deterministic [1, 2, 3, 4, 5] (.parsed [] "adbe.pkcs7.sha1" (0, 1, 3, 2)) cryptoAllOk
    (.ok [1, 0, 0, 4, 5]) (.ok [1, 0, 0, 4, 5]) (by decide) (by decide)

end DuoIssuer

namespace DuoIssuer

theorem getD_take_lt (xs : List Nat) (k i d : Nat) (h : i < k) :
    (xs.take k).getD i d = xs.getD i d := by
  by_cases hi : i < xs.length
  · have h1 : i < (xs.take k).length := by
      rw [List.length_take]; omega
    rw [List.getD_eq_getElem _ _ h1, List.getD_eq_getElem _ _ hi, List.getElem_take]
  · have h1 : (xs.take k).length ≤ i := by
      rw [List.length_take]; omega
    rw [List.getD_eq_default _ _ h1, List.getD_eq_default _ _ (by omega)]

theorem getD_drop_add (xs : List Nat) (k j d : Nat) :
    (xs.drop k).getD j d = xs.getD (k + j) d := by
  by_cases hj : j < (xs.drop k).length
  · have h2 : k + j < xs.length := by
      rw [List.length_drop] at hj; omega
    rw [List.getD_eq_getElem _ _ hj, List.getD_eq_getElem _ _ h2, List.getElem_drop]
  · have h2 : xs.length ≤ k + j := by
      rw [List.length_drop] at hj; omega
    rw [List.getD_eq_default _ _ (Nat.le_of_not_lt hj), List.getD_eq_default _ _ h2]

theorem getD_replicate_self (r i d : Nat) :
    (List.replicate r d).getD i d = d := by
  by_cases hi : i < r
  · rw [List.getD_eq_getElem _ _ (by simpa using hi)]
    exact List.getElem_replicate d _
  · exact List.getD_eq_default _ _ (by simpa using hi)

theorem trusted_buffer_getD (xs : List Nat) (l0n o1n i : Nat)
    (hl0 : l0n ≤ xs.length) (ho1 : o1n ≤ xs.length) :
    (((xs.take l0n ++ List.replicate (xs.length - l0n) 0).take o1n) ++ xs.drop o1n).getD i 0 =
      if (i < l0n ∧ i < o1n) ∨ o1n ≤ i then xs.getD i 0 else 0 := by
  have hA : (xs.take l0n ++ List.replicate (xs.length - l0n) 0).length = xs.length := by
    simp [List.length_take]; omega
  have hB : ((xs.take l0n ++ List.replicate (xs.length - l0n) 0).take o1n).length = o1n := by
    rw [List.length_take, hA]; omega
  by_cases h1 : i < o1n
  · rw [List.getD_append _ _ _ _ (by rw [hB]; exact h1), getD_take_lt _ _ _ _ h1]
    by_cases h2 : i < l0n
    · rw [List.getD_append _ _ _ _ (by rw [List.length_take]; omega),
        getD_take_lt _ _ _ _ h2, if_pos (Or.inl ⟨h2, h1⟩)]
    · rw [List.getD_append_right _ _ _ _ (by rw [List.length_take]; omega),
        getD_replicate_self, if_neg (by omega)]
  · rw [List.getD_append_right _ _ _ _ (by rw [hB]; omega), hB, getD_drop_add]
    have hi : o1n + (i - o1n) = i := by omega
    rw [hi, if_pos (Or.inr (by omega))]

theorem goSliceGet_some (xs : List Nat) (lo hi : Int) (r : List Nat)
    (h : goSliceGet xs lo hi = some r) :
    0 ≤ lo ∧ lo ≤ hi ∧ hi ≤ (xs.length : Int) ∧
      r = (xs.drop lo.toNat).take (hi - lo).toNat := by
  unfold goSliceGet at h
  split at h
  · rename_i hc
    exact ⟨hc.1, hc.2.1, hc.2.2, (Option.some.inj h).symm⟩
  · exact Option.noConfusion h

theorem goMake_some (n : Int) (r : List Nat) (h : goMake n = some r) :
    0 ≤ n ∧ r = List.replicate n.toNat 0 := by
  unfold goMake at h
  split at h
  · rename_i hc
    exact ⟨hc, (Option.some.inj h).symm⟩
  · exact Option.noConfusion h

theorem goCopyInto_some (buf : List Nat) (off len : Int) (src r : List Nat)
    (h : goCopyInto buf off len src = some r) :
    0 ≤ off ∧ off ≤ off + len ∧ off + len ≤ (buf.length : Int) ∧
      r = buf.take off.toNat ++ src.take (min len.toNat src.length) ++
        buf.drop (off.toNat + min len.toNat src.length) := by
  unfold goCopyInto at h
  split at h
  · rename_i hc
    exact ⟨hc.1, hc.2.1, hc.2.2, (Option.some.inj h).symm⟩
  · exact Option.noConfusion h

theorem verifyPDF_ok_shape (inputPDF contents : List Nat) (subfilter : String)
    (o0 l0 o1 l1 : Int) (c : Crypto) (t : List Nat)
    (h : verifyPDF inputPDF (.parsed contents subfilter (o0, l0, o1, l1)) c = .ok t) :
    o0 = 0 ∧ o1 + l1 = (inputPDF.length : Int) ∧
    0 ≤ l0 ∧ l0 ≤ (inputPDF.length : Int) ∧ 0 ≤ o1 ∧ 0 ≤ l1 ∧
    t = (inputPDF.take l0.toNat ++
        List.replicate (inputPDF.length - l0.toNat) 0).take o1.toNat ++
      inputPDF.drop o1.toNat := by
  simp only [verifyPDF] at h
  split at h
  · exact VerifyOutcome.noConfusion h
  · rename_i hsane
    push_neg at hsane
    obtain ⟨ho0, hn⟩ := hsane
    subst ho0
    split at h
    · rename_i before after heq1 heq2
      split at h
      · exact VerifyOutcome.noConfusion h
      · split at h
        · exact VerifyOutcome.noConfusion h
        · rename_i buf0 heq4
          split at h
          · exact VerifyOutcome.noConfusion h
          · rename_i buf1 heq5
            split at h
            · exact VerifyOutcome.noConfusion h
            · rename_i buf2 heq6
              have ht : t = buf2 := (VerifyOutcome.ok.inj h).symm
              obtain ⟨hs1a, hs1b, hs1c, hbefore⟩ := goSliceGet_some _ _ _ _ heq1
              obtain ⟨hs2a, hs2b, hs2c, hafter⟩ := goSliceGet_some _ _ _ _ heq2
              obtain ⟨hm0, hbuf0⟩ := goMake_some _ _ heq4
              obtain ⟨hc1a, hc1b, hc1c, hbuf1⟩ := goCopyInto_some _ _ _ _ _ heq5
              obtain ⟨hc2a, hc2b, hc2c, hbuf2⟩ := goCopyInto_some _ _ _ _ _ heq6
              refine ⟨rfl, hn, by omega, by omega, by omega, by omega, ?_⟩
              have hbefore2 : before = inputPDF.take l0.toNat := by
                rw [hbefore]
                simp
              have hbeforelen : before.length = l0.toNat := by
                rw [hbefore2, List.length_take]
                omega
              have hafter2 : after = inputPDF.drop o1.toNat := by
                rw [hafter]
                have : (o1 + l1 - o1).toNat = l1.toNat := by omega
                rw [this]
                exact List.take_of_length_le (by rw [List.length_drop]; omega)
              have hafterlen : after.length = l1.toNat := by
                rw [hafter2, List.length_drop]
                omega
              have hbuf0len : buf0.length = inputPDF.length := by
                rw [hbuf0, List.length_replicate]
                omega
              have hbuf02 : buf0 = List.replicate inputPDF.length 0 := by
                rw [hbuf0]
                congr 1
                omega
              have hbuf12 : buf1 = inputPDF.take l0.toNat ++
                  List.replicate (inputPDF.length - l0.toNat) 0 := by
                rw [hbuf1, hbeforelen]
                have hmin : min l0.toNat l0.toNat = l0.toNat := by omega
                rw [hmin]
                have h0 : (0 : Int).toNat = 0 := rfl
                rw [h0, List.take_zero, List.nil_append, Nat.zero_add,
                  List.take_of_length_le (le_of_eq hbeforelen), hbefore2, hbuf02,
                  List.drop_replicate]
              have hbuf1len : buf1.length = inputPDF.length := by
                rw [hbuf12]
                simp [List.length_take]
                omega
              have hbuf22 : buf2 = buf1.take o1.toNat ++ after := by
                rw [hbuf2, hafterlen]
                have hmin : min l1.toNat l1.toNat = l1.toNat := by omega
                rw [hmin]
                have hdropnil : buf1.drop (o1.toNat + l1.toNat) = [] := by
                  apply List.drop_eq_nil_of_le
                  rw [hbuf1len]
                  omega
                rw [hdropnil, List.append_nil,
                  List.take_of_length_le (le_of_eq hafterlen)]
              rw [ht, hbuf22, hbuf12, hafter2]
    · exact VerifyOutcome.noConfusion h

end DuoIssuer

namespace DuoIssuer

/-- Counterexample to C1 as stated: on a five-byte input whose declared
ranges are [0,1] and [3,2] and whose signature verifies, verifyPDF
succeeds, the two declared spans are [1] and [4,5], but the returned
trusted document is [1,0,0,4,5] — the spans placed at their original
offsets with a zero gap — not their concatenation [1,4,5]. -/
theorem C1_concatenation_counterexample :
    verifyPDF [1, 2, 3, 4, 5] (.parsed [] "adbe.pkcs7.sha1" (0, 1, 3, 2)) cryptoAllOk =
      .ok [1, 0, 0, 4, 5] ∧
    goSliceGet [1, 2, 3, 4, 5] 0 (0 + 1) = some [1] ∧
    goSliceGet [1, 2, 3, 4, 5] 3 (3 + 2) = some [4, 5] ∧
    ([1, 0, 0, 4, 5] : List Nat) ≠ [1] ++ [4, 5] :=
  ⟨by decide, by decide, by decide, by decide⟩

/-- C1 (amended): whenever verifyPDF succeeds — in particular whenever
the signature verifies under either sub-filter — the returned trusted
document is a buffer of length o1+l1 holding the bytes of the two
declared ByteRange spans at their original offsets: every position
inside a declared span carries the input byte of that position, and
every position outside both spans is zero, so no input byte outside the
two spans is ever included. -/
theorem C1_trusted_output (inputPDF contents : List Nat) (subfilter : String)
    (o0 l0 o1 l1 : Int) (c : Crypto) (t : List Nat)
    (h : verifyPDF inputPDF (.parsed contents subfilter (o0, l0, o1, l1)) c = .ok t) :
    (t.length : Int) = o1 + l1 ∧
    (∀ i : Nat, (o0 ≤ (i : Int) ∧ (i : Int) < o0 + l0) ∨
        (o1 ≤ (i : Int) ∧ (i : Int) < o1 + l1) →
      t.getD i 0 = inputPDF.getD i 0) ∧
    (∀ i : Nat, i < t.length →
      ¬((o0 ≤ (i : Int) ∧ (i : Int) < o0 + l0) ∨
        (o1 ≤ (i : Int) ∧ (i : Int) < o1 + l1)) →
      t.getD i 0 = 0) := by
  obtain ⟨ho0, hn, hl0, hl0n, ho1, hl1, ht⟩ :=
    verifyPDF_ok_shape inputPDF contents subfilter o0 l0 o1 l1 c t h
  subst ho0
  subst ht
  have hTlen : ((inputPDF.take l0.toNat ++
      List.replicate (inputPDF.length - l0.toNat) 0).take o1.toNat ++
      inputPDF.drop o1.toNat).length = inputPDF.length := by
    simp [List.length_take]
    omega
  refine ⟨by rw [hTlen]; omega, ?_, ?_⟩
  · intro i hi
    rw [trusted_buffer_getD _ _ _ _ (by omega) (by omega), if_pos (by omega)]
  · intro i hilen hnot
    rw [hTlen] at hilen
    rw [trusted_buffer_getD _ _ _ _ (by omega) (by omega), if_neg (by omega)]

/-- Witness for C1 (amended) at the counterexample input: length 5,
position 0 (inside the first span) carries the input byte, position 1
(the gap) is zero. -/
theorem C1_trusted_output_witness :
    ((([1, 0, 0, 4, 5] : List Nat).length : Int) = 3 + 2) ∧
    ([1, 0, 0, 4, 5] : List Nat).getD 0 0 = ([1, 2, 3, 4, 5] : List Nat).getD 0 0 ∧
    ([1, 0, 0, 4, 5] : List Nat).getD 1 0 = 0 := by
  have h := C1_trusted_output [1, 2, 3, 4, 5] [] "adbe.pkcs7.sha1" 0 1 3 2 cryptoAllOk
    [1, 0, 0, 4, 5] (by decide)
  exact ⟨h.1, h.2.1 0 (by omega), h.2.2 1 (by omega) (by omega)⟩

end DuoIssuer
